import Mathlib

/-!
Verification of the cobot agent runtime: a shallow embedding of the
plugin registry, the message orchestrator's dedup logic and respond loop,
the pairing store and plugin, and the compaction plugin, with theorems
checking the natural-language specification against the code.
-/

namespace Cobot

/-! ## Dedup set of `Cobot.handle_message` (agent.py)

The orchestrator deduplicates incoming messages by a string key and keeps
the processed keys in a Python `set`.  A Python `set` is unordered: its
iteration order (what `list(s)` returns) is implementation-defined and is
not insertion order.  We model the set as the list of its elements in the
iteration order the interpreter happens to use, and we abstract the
position at which `set.add` places a new element by an insertion function
`ins`; `PermIns ins` says `ins` produces exactly the old elements plus the
new one, in an arbitrary order.  Every behaviour of the real interpreter
is one choice of `ins`. -/

/-- Dedup key computed by `Cobot.handle_message`:
the Python f-string `channel_type:channel_id:id`. -/
def dedupKey (channelType channelId msgId : String) : String :=
  channelType ++ ":" ++ channelId ++ ":" ++ msgId

/-- The insertion function models `set.add` followed by taking the new
iteration order: it must contain exactly the new key and the old elements. -/
def PermIns (ins : String → List String → List String) : Prop :=
  ∀ k l, (ins k l).Perm (k :: l)

/-- Model of `set.add` when the interpreter happens to enumerate the set
in insertion order (oldest first). -/
def insAppend (k : String) (l : List String) : List String := l ++ [k]

/-- Model of `set.add` when the interpreter happens to enumerate the set
in reverse insertion order (newest first). -/
def insPrepend (k : String) (l : List String) : List String := k :: l

/-- Embedding of the dedup prologue of `Cobot.handle_message`
(agent.py lines 215-222): if the key is in `_processed_events` return
immediately (no hook runs); otherwise add it, and when the set has grown
past 1000 elements replace it by `set(list(...)[500:])`.  The returned
boolean records whether execution reached the `on_message_received`
hook dispatch. -/
def handleMessageDedup (ins : String → List String → List String)
    (st : List String) (key : String) : List String × Bool :=
  if key ∈ st then (st, false)
  else
    let st1 := ins key st
    let st2 := if 1000 < st1.length then st1.drop 500 else st1
    (st2, true)

/-- Run `handleMessageDedup` over a sequence of delivered keys, collecting
(in delivery order) the keys for which the `on_message_received` hook
chain was dispatched. -/
def handleMessages (ins : String → List String → List String) :
    List String → List String → List String × List String
  | st, [] => (st, [])
  | st, k :: ks =>
    let p := handleMessageDedup ins st k
    let q := handleMessages ins p.1 ks
    (q.1, if p.2 then k :: q.2 else q.2)

/-- Concrete pairwise-distinct dedup keys used in counterexample runs:
`kstr i` is the string of `i + 1` copies of `x`. -/
def kstr (i : Nat) : String := String.mk (List.replicate (i + 1) 'x')

/-- The first `n` concrete keys. -/
def kseq (n : Nat) : List String := (List.range n).map kstr

theorem kstr_length (i : Nat) : (kstr i).length = i + 1 := by
  simp [kstr, String.length]

theorem kstr_injective : Function.Injective kstr := by
  intro i j h
  have h2 := congrArg String.length h
  simp only [kstr_length] at h2
  omega

theorem kseq_nodup (n : Nat) : (kseq n).Nodup :=
  (List.nodup_range n).map kstr_injective

theorem kseq_length (n : Nat) : (kseq n).length = n := by
  simp [kseq]

theorem mem_kseq_iff {i n : Nat} : kstr i ∈ kseq n ↔ i < n := by
  constructor
  · intro h
    rcases List.mem_map.mp h with ⟨j, hj, hji⟩
    have := kstr_injective hji
    subst this
    exact List.mem_range.mp hj
  · intro h
    exact List.mem_map.mpr ⟨i, List.mem_range.mpr h, rfl⟩

theorem handleMessages_singleton (ins : String → List String → List String)
    (st : List String) (k : String) :
    handleMessages ins st [k] =
      ((handleMessageDedup ins st k).1,
        if (handleMessageDedup ins st k).2 then [k] else []) := by
  cases h : (handleMessageDedup ins st k).2 <;> simp [handleMessages, h]

theorem handleMessages_append (ins : String → List String → List String)
    (st : List String) (l1 l2 : List String) :
    handleMessages ins st (l1 ++ l2) =
      ((handleMessages ins (handleMessages ins st l1).1 l2).1,
       (handleMessages ins st l1).2 ++
         (handleMessages ins (handleMessages ins st l1).1 l2).2) := by
  induction l1 generalizing st with
  | nil => simp [handleMessages]
  | cons k ks ih =>
    simp only [List.cons_append, handleMessages, List.append_eq]
    rw [ih]
    cases (handleMessageDedup ins st k).2 <;> simp

/-- Running fresh, pairwise-distinct keys with the oldest-first iteration
order and no trim appends them to the state. -/
theorem handleMessages_fresh_append (ks : List String) :
    ∀ st : List String, (∀ k ∈ ks, k ∉ st) → ks.Nodup →
      st.length + ks.length ≤ 1000 →
      handleMessages insAppend st ks = (st ++ ks, ks) := by
  induction ks with
  | nil => intro st _ _ _; simp [handleMessages]
  | cons k ks ih =>
    intro st hfresh hnd hlen
    have hk : k ∉ st := hfresh k (List.mem_cons_self k ks)
    have hstep : handleMessageDedup insAppend st k = (st ++ [k], true) := by
      have hle : ¬ 1000 < st.length + 1 := by
        simp only [List.length_cons] at hlen
        omega
      simp [handleMessageDedup, hk, hle, insAppend]
    have hfresh2 : ∀ k2 ∈ ks, k2 ∉ st ++ [k] := by
      intro k2 hk2
      simp only [List.mem_append, List.mem_singleton]
      rintro (h | h)
      · exact hfresh k2 (List.mem_cons_of_mem k hk2) h
      · exact (List.nodup_cons.mp hnd).1 (h ▸ hk2)
    have hnd2 : ks.Nodup := (List.nodup_cons.mp hnd).2
    have hlen2 : (st ++ [k]).length + ks.length ≤ 1000 := by
      simp only [List.length_append, List.length_singleton]
      simp only [List.length_cons] at hlen
      omega
    have hrec := ih (st ++ [k]) hfresh2 hnd2 hlen2
    simp [handleMessages, hstep, hrec]

/-- Running fresh, pairwise-distinct keys with the newest-first iteration
order and no trim prepends them (in reverse) to the state. -/
theorem handleMessages_fresh_prepend (ks : List String) :
    ∀ st : List String, (∀ k ∈ ks, k ∉ st) → ks.Nodup →
      st.length + ks.length ≤ 1000 →
      handleMessages insPrepend st ks = (ks.reverse ++ st, ks) := by
  induction ks with
  | nil => intro st _ _ _; simp [handleMessages]
  | cons k ks ih =>
    intro st hfresh hnd hlen
    have hk : k ∉ st := hfresh k (List.mem_cons_self k ks)
    have hstep : handleMessageDedup insPrepend st k = (k :: st, true) := by
      have hle : ¬ 1000 < st.length + 1 := by
        simp only [List.length_cons] at hlen
        omega
      simp [handleMessageDedup, hk, hle, insPrepend]
    have hfresh2 : ∀ k2 ∈ ks, k2 ∉ k :: st := by
      intro k2 hk2
      simp only [List.mem_cons]
      rintro (h | h)
      · exact (List.nodup_cons.mp hnd).1 (h ▸ hk2)
      · exact hfresh k2 (List.mem_cons_of_mem k hk2) h
    have hnd2 : ks.Nodup := (List.nodup_cons.mp hnd).2
    have hlen2 : (k :: st).length + ks.length ≤ 1000 := by
      simp only [List.length_cons]
      simp only [List.length_cons] at hlen
      omega
    have hrec := ih (k :: st) hfresh2 hnd2 hlen2
    simp [handleMessages, hstep, hrec]

theorem kseq_split (m n : Nat) :
    kseq (m + n) = kseq m ++ (List.range n).map (fun j => kstr (m + j)) := by
  simp [kseq, List.range_add, List.map_map, Function.comp]

theorem kseq_succ (n : Nat) : kseq (n + 1) = kseq n ++ [kstr n] := by
  simp [kseq, List.range_succ]

/-- Concrete run: 1001 fresh keys through the dedup logic when the set
iterates in insertion order.  The trim at the 1001st key keeps the newest
501 keys (indices 500..1000) and every key dispatches the hook once. -/
theorem run_append_1001 :
    handleMessages insAppend [] (kseq 1001) =
      ((List.range 501).map (fun j => kstr (500 + j)), kseq 1001) := by
  have hsplit : kseq 1001 = kseq 1000 ++ [kstr 1000] := kseq_succ 1000
  have hrun : handleMessages insAppend [] (kseq 1000) = (kseq 1000, kseq 1000) := by
    have := handleMessages_fresh_append (kseq 1000) []
      (by intro k _ hk; simp at hk) (kseq_nodup 1000) (by simp [kseq_length])
    simpa using this
  have hnotmem : kstr 1000 ∉ kseq 1000 := by
    intro h; exact absurd (mem_kseq_iff.mp h) (by omega)
  have hlen1001 : (kseq 1001).length = 1001 := kseq_length 1001
  have hstep : handleMessageDedup insAppend (kseq 1000) (kstr 1000) =
      ((List.range 501).map (fun j => kstr (500 + j)), true) := by
    have hins : insAppend (kstr 1000) (kseq 1000) = kseq 1001 := (kseq_succ 1000).symm
    have hdrop : (kseq 1001).drop 500 = (List.range 501).map (fun j => kstr (500 + j)) := by
      have h2 : kseq 1001 = kseq 500 ++ (List.range 501).map (fun j => kstr (500 + j)) :=
        kseq_split 500 501
      rw [h2, List.drop_left' (kseq_length 500)]
    simp only [handleMessageDedup]
    rw [if_neg hnotmem, hins, if_pos (by rw [hlen1001]; omega), hdrop]
  rw [hsplit, handleMessages_append, hrun]
  simp [handleMessages, hstep, ← hsplit]

/-- Concrete run: 1001 fresh keys through the dedup logic when the set
iterates in reverse insertion order.  The trim at the 1001st key keeps the
OLDEST 501 keys (indices 0..500). -/
theorem run_prepend_1001 :
    handleMessages insPrepend [] (kseq 1001) = ((kseq 501).reverse, kseq 1001) := by
  have hsplit : kseq 1001 = kseq 1000 ++ [kstr 1000] := kseq_succ 1000
  have hrun : handleMessages insPrepend [] (kseq 1000) =
      ((kseq 1000).reverse, kseq 1000) := by
    have := handleMessages_fresh_prepend (kseq 1000) []
      (by intro k _ hk; simp at hk) (kseq_nodup 1000) (by simp [kseq_length])
    simpa using this
  have hnotmem : kstr 1000 ∉ (kseq 1000).reverse := by
    rw [List.mem_reverse]
    intro h; exact absurd (mem_kseq_iff.mp h) (by omega)
  have hrev : kstr 1000 :: (kseq 1000).reverse = (kseq 1001).reverse := by
    rw [hsplit, List.reverse_append]; simp
  have hstep : handleMessageDedup insPrepend ((kseq 1000).reverse) (kstr 1000) =
      ((kseq 501).reverse, true) := by
    have hdrop : ((kseq 1001).reverse).drop 500 = (kseq 501).reverse := by
      have h2 : kseq 1001 = kseq 501 ++ (List.range 500).map (fun j => kstr (501 + j)) :=
        kseq_split 501 500
      rw [h2, List.reverse_append]
      exact List.drop_left' (by simp)
    simp only [handleMessageDedup, insPrepend]
    rw [if_neg (by simp [hnotmem])]
    rw [hrev]
    rw [if_pos (by simp [kseq_length] : 1000 < ((kseq 1001).reverse).length), hdrop]
  rw [hsplit, handleMessages_append, hrun]
  simp [handleMessages, hstep, ← hsplit]

/-- Claim C2 counterexample: the claim says that when the insertion brings
the dedup set past 1000 entries, exactly the OLDEST 500 keys in insertion
(FIFO) order are discarded — so after delivering the 1001 distinct keys
`kstr 0 .. kstr 1000` the oldest key `kstr 0` must be gone and the newest
key `kstr 1000` must be kept.  The code stores the keys in a Python `set`,
whose iteration order is implementation-defined; under the (legal)
newest-first enumeration, the trim keeps `kstr 0` and discards
`kstr 1000`: the discarded keys are an enumeration-order-dependent subset,
not the FIFO-oldest 500. -/
theorem dedup_trim_not_fifo :
    kstr 0 ∈ (handleMessages insPrepend [] (kseq 1001)).1 ∧
    kstr 1000 ∉ (handleMessages insPrepend [] (kseq 1001)).1 ∧
    ((handleMessages insPrepend [] (kseq 1001)).1).length = 501 := by
  rw [run_prepend_1001]
  refine ⟨?_, ?_, by simp [kseq_length]⟩
  · rw [List.mem_reverse]; exact mem_kseq_iff.mpr (by omega)
  · rw [List.mem_reverse]; intro h; exact absurd (mem_kseq_iff.mp h) (by omega)

/-- Claim C2 (amended): between `handle_message` calls the processed-events
set holds at most 1000 keys, and an insertion that brings it past 1000
entries discards exactly 500 keys (1001 down to 501) — but which 500 are
discarded depends on the set's implementation-defined iteration order, not
on FIFO insertion order. -/
theorem dedup_set_bound_and_trim_count
    (ins : String → List String → List String) (hins : PermIns ins)
    (st : List String) (key : String) (hst : st.length ≤ 1000) :
    ((handleMessageDedup ins st key).1).length ≤ 1000 ∧
    (st.length = 1000 → key ∉ st →
      ((handleMessageDedup ins st key).1).length = 501) := by
  by_cases hk : key ∈ st
  · constructor
    · simp [handleMessageDedup, hk]; omega
    · intro _ hnot; exact absurd hk hnot
  · have hlen1 : (ins key st).length = st.length + 1 := by
      have := (hins key st).length_eq
      simpa using this
    by_cases hgt : 1000 < (ins key st).length
    · have hres : handleMessageDedup ins st key = ((ins key st).drop 500, true) := by
        simp only [handleMessageDedup]
        rw [if_neg hk, if_pos hgt]
      rw [hres]
      constructor
      · simp only [List.length_drop, hlen1]; omega
      · intro h1000 _
        simp only [List.length_drop, hlen1, h1000]
    · have hres : handleMessageDedup ins st key = (ins key st, true) := by
        simp only [handleMessageDedup]
        rw [if_neg hk, if_neg hgt]
      rw [hres]
      constructor
      · show (ins key st).length ≤ 1000
        omega
      · intro h1000 _
        rw [hlen1, h1000] at hgt
        exact absurd (by omega) hgt

/-- Claim C2 witness: instantiates the amended bound at a set holding the
1000 keys `kstr 0 .. kstr 999` and the fresh key `kstr 1000`. -/
theorem dedup_set_bound_and_trim_count_witness :
    PermIns insPrepend ∧ (kseq 1000).length ≤ 1000 ∧
    (((handleMessageDedup insPrepend (kseq 1000) (kstr 1000)).1).length ≤ 1000 ∧
      ((kseq 1000).length = 1000 → kstr 1000 ∉ kseq 1000 →
        ((handleMessageDedup insPrepend (kseq 1000) (kstr 1000)).1).length = 501)) :=
  ⟨fun _ _ => List.Perm.refl _, by simp [kseq_length],
    dedup_set_bound_and_trim_count insPrepend (fun _ _ => List.Perm.refl _)
      (kseq 1000) (kstr 1000) (by simp [kseq_length])⟩

/-- Claim C1 counterexample: the claim says a re-delivery of a message
with the same dedup key within the same process lifetime NEVER triggers a
second `on_message_received` dispatch.  Deliver `kstr 0`, then 1000 more
distinct keys (which triggers the trim and — under the insertion-order
enumeration — evicts `kstr 0`), then re-deliver `kstr 0`: the hook chain
is dispatched twice for `kstr 0`. -/
theorem dedup_redelivery_after_eviction_runs_hook_again :
    ((handleMessages insAppend [] (kseq 1001 ++ [kstr 0])).2).count (kstr 0) = 2 := by
  have hmem : kstr 0 ∉ (List.range 501).map (fun j => kstr (500 + j)) := by
    intro h
    rcases List.mem_map.mp h with ⟨j, _, hj⟩
    have := kstr_injective hj
    omega
  have hstep : handleMessageDedup insAppend
      ((List.range 501).map (fun j => kstr (500 + j))) (kstr 0) =
      (((List.range 501).map (fun j => kstr (500 + j))) ++ [kstr 0], true) := by
    simp only [handleMessageDedup, insAppend]
    rw [if_neg hmem, if_neg (by simp)]
  have hall : handleMessages insAppend [] (kseq 1001 ++ [kstr 0]) =
      (((List.range 501).map (fun j => kstr (500 + j))) ++ [kstr 0],
       kseq 1001 ++ [kstr 0]) := by
    rw [handleMessages_append, run_append_1001]
    simp only [handleMessages_singleton]
    simp [hstep]
  rw [hall]
  have h1 : (kseq 1001).count (kstr 0) = 1 := by
    have h2 : (kseq 1001).count (kstr 0) = (List.range 1001).count 0 := by
      simpa [kseq] using List.count_map_of_injective (List.range 1001) kstr kstr_injective 0
    rw [h2]
    exact List.count_eq_one_of_mem (List.nodup_range 1001) (List.mem_range.mpr (by omega))
  simp [List.count_append, List.count_cons, h1]

/-- Claim C1 (amended): the dedup key is added to the processed-events set
before the `on_message_received` hook chain runs, and while the set has not
reached its 1000-key bound the just-added key survives, so a re-delivery
of a key that is still in the set returns immediately with no second hook
dispatch.  (After the trim a key can be evicted, allowing a much later
re-delivery to dispatch the hook again — see the counterexample.) -/
theorem dedup_record_and_redelivery
    (ins : String → List String → List String) (hins : PermIns ins)
    (st : List String) (key : String) :
    (key ∈ st → handleMessageDedup ins st key = (st, false)) ∧
    (key ∉ st → st.length < 1000 →
      (handleMessageDedup ins st key).2 = true ∧
      key ∈ (handleMessageDedup ins st key).1 ∧
      handleMessageDedup ins (handleMessageDedup ins st key).1 key =
        ((handleMessageDedup ins st key).1, false)) := by
  constructor
  · intro hk
    simp [handleMessageDedup, hk]
  · intro hk hlen
    have hlen1 : (ins key st).length = st.length + 1 := by
      have := (hins key st).length_eq
      simpa using this
    have hle : ¬ 1000 < (ins key st).length := by omega
    have hres : handleMessageDedup ins st key = (ins key st, true) := by
      simp only [handleMessageDedup]
      rw [if_neg hk, if_neg hle]
    have hmem : key ∈ ins key st := ((hins key st).mem_iff).mpr (List.mem_cons_self key st)
    refine ⟨by rw [hres], by rw [hres]; exact hmem, ?_⟩
    rw [hres]
    simp [handleMessageDedup, hmem]

/-- Claim C1 witness: the amended statement instantiated at the empty set
and the key `a`: the hook runs, the key is recorded, and an immediate
re-delivery is dropped without a second hook dispatch. -/
theorem dedup_record_and_redelivery_witness :
    PermIns insPrepend ∧ "a" ∉ ([] : List String) ∧ ([] : List String).length < 1000 ∧
    ((handleMessageDedup insPrepend [] "a").2 = true ∧
      "a" ∈ (handleMessageDedup insPrepend [] "a").1 ∧
      handleMessageDedup insPrepend (handleMessageDedup insPrepend [] "a").1 "a" =
        ((handleMessageDedup insPrepend [] "a").1, false)) :=
  ⟨fun _ _ => List.Perm.refl _, by simp, by simp,
    (dedup_record_and_redelivery insPrepend (fun _ _ => List.Perm.refl _) [] "a").2
      (by simp) (by simp)⟩

/-! ## Plugin registry: load order, lifecycle (registry.py)

`PluginRegistry` keeps `_plugins` as a dict (insertion = registration
order), resolves `_load_order` in `configure_all`, and drives the
`start_all` / `stop_all` lifecycle guarded by the `_started` flag. -/

/-- The slice of `PluginMeta` that load-order resolution and dependency
checking read. -/
structure RegPlugin where
  id : String
  priority : Int
  dependencies : List String
deriving DecidableEq

/-- Stable insert for the priority sort: a plugin is placed before the
first strictly-or-equally later-priority element it precedes, preserving
the original (registration) order among equal priorities — the semantics
of Python's stable `sorted(..., key=priority)`. -/
def insertByPriority (p : RegPlugin) : List RegPlugin → List RegPlugin
  | [] => [p]
  | q :: qs => if p.priority ≤ q.priority then p :: q :: qs else q :: insertByPriority p qs

/-- Stable sort by `meta.priority`; extensionally equal to Python's
`sorted(self._plugins.keys(), key=lambda pid: priority)` since both are
stable sorts on the same key. -/
def sortByPriority : List RegPlugin → List RegPlugin
  | [] => []
  | p :: ps => insertByPriority p (sortByPriority ps)

/-- Embedding of `PluginRegistry._resolve_load_order` (registry.py
152-161): sort the registered plugins by priority — the `TODO` topological
sort over dependencies is not implemented; ties keep registration order. -/
def resolveLoadOrder (plugins : List RegPlugin) : List String :=
  (sortByPriority plugins).map (fun p => p.id)

/-- Embedding of `PluginRegistry._check_dependencies`: every dependency of
every plugin must be registered (by id); presence only, no ordering. -/
def checkDependencies (plugins : List RegPlugin) : Bool :=
  plugins.all (fun p => p.dependencies.all (fun d => plugins.any (fun q => q.id = d)))

/-- Walk the load order calling `configure` on each plugin; the first
failure is fatal (PluginError) and stops the walk.  Returns the ids
configured (including the failing one) and whether all succeeded. -/
def configureSeq (confFails : String → Bool) : List String → List String × Bool
  | [] => ([], true)
  | pid :: rest =>
    if confFails pid then ([pid], false)
    else
      let r := configureSeq confFails rest
      (pid :: r.1, r.2)

/-- Embedding of `PluginRegistry.configure_all` (registry.py 172-197):
store the resolved load order, check dependencies (fatal on a missing
one), then configure each plugin in load order.  Returns the stored load
order, the configure attempts, and overall success. -/
def configureAll (plugins : List RegPlugin) (confFails : String → Bool) :
    List String × List String × Bool :=
  let order := resolveLoadOrder plugins
  if checkDependencies plugins then
    let r := configureSeq confFails order
    (order, r.1, r.2)
  else (order, [], false)

/-- Two registered plugins: `alpha` (priority 10) depends on `beta`
(priority 20). -/
def regAB : List RegPlugin := [⟨"alpha", 10, ["beta"]⟩, ⟨"beta", 20, []⟩]

/-- Two plugins of equal priority registered in non-id order. -/
def regTie : List RegPlugin := [⟨"zeta", 10, []⟩, ⟨"alpha", 10, []⟩]

/-- Claim C3: `_resolve_load_order` carries a `TODO: Topological sort for
dependencies` and sorts by priority only, so the claim (and the
registry's own docstring, which promises ordering "based on priority and
dependencies") is not met: `alpha` (priority 10) depends on `beta`
(priority 20), the dependency check passes, yet `configure_all` resolves
the order `[alpha, beta]`, placing the dependency after its dependent.
Priority ties are also kept in registration order (`[zeta, alpha]`), not
re-ordered by id. -/
theorem resolve_load_order_ignores_dependencies :
    configureAll regAB (fun _ => false) = (["alpha", "beta"], ["alpha", "beta"], true) ∧
    (regAB.head?.map (fun p => p.dependencies)) = some ["beta"] ∧
    resolveLoadOrder regTie = ["zeta", "alpha"] := by
  refine ⟨?_, by decide, by decide⟩
  decide

/-! ### start_all / stop_all lifecycle -/

/-- Registry lifecycle state: the stored load order and the `_started`
flag. -/
structure RegState where
  loadOrder : List String
  started : Bool
deriving DecidableEq

/-- Observable lifecycle events: a successful plugin start, a failed
plugin start (the PluginError that aborts `start_all`), and a stop
attempt with its outcome (stop exceptions are caught and only logged). -/
inductive LifeEvent
  | startOk (pid : String)
  | startFail (pid : String)
  | stopOk (pid : String)
  | stopFail (pid : String)
deriving DecidableEq

/-- The plugin id an event concerns. -/
def LifeEvent.pid : LifeEvent → String
  | .startOk p => p
  | .startFail p => p
  | .stopOk p => p
  | .stopFail p => p

/-- Start plugins in load order; the first failure raises PluginError and
aborts the walk. -/
def startSeq (startFails : String → Bool) : List String → List LifeEvent × Bool
  | [] => ([], true)
  | pid :: rest =>
    if startFails pid then ([.startFail pid], false)
    else
      let r := startSeq startFails rest
      (.startOk pid :: r.1, r.2)

/-- Embedding of `PluginRegistry.start_all` (registry.py 199-214): a no-op
when `_started`; otherwise start in load order, re-raising the first
failure; `_started` is set only after the whole loop succeeds. -/
def startAll (startFails : String → Bool) (st : RegState) :
    RegState × List LifeEvent × Bool :=
  if st.started then (st, [], true)
  else
    let r := startSeq startFails st.loadOrder
    if r.2 then ({ st with started := true }, r.1, true)
    else (st, r.1, false)

/-- Stop every plugin in the given order; exceptions from a plugin's
`stop` are caught and logged, the walk always continues. -/
def stopSeq (stopFails : String → Bool) : List String → List LifeEvent
  | [] => []
  | pid :: rest =>
    (if stopFails pid then LifeEvent.stopFail pid else LifeEvent.stopOk pid) ::
      stopSeq stopFails rest

/-- Embedding of `PluginRegistry.stop_all` (registry.py 216-230): a no-op
when not `_started`; otherwise stop every plugin in reverse load order
(each failure caught) and clear `_started`. -/
def stopAll (stopFails : String → Bool) (st : RegState) : RegState × List LifeEvent :=
  if st.started then ({ st with started := false }, stopSeq stopFails st.loadOrder.reverse)
  else (st, [])

theorem stopSeq_pids (stopFails : String → Bool) (l : List String) :
    (stopSeq stopFails l).map LifeEvent.pid = l := by
  induction l with
  | nil => simp [stopSeq]
  | cons pid rest ih =>
    by_cases h : stopFails pid <;> simp [stopSeq, h, LifeEvent.pid, ih]

/-- Claim C4 counterexample: with load order `[alpha, beta]` and `beta`
failing to start, `start_all` starts `alpha`, raises on `beta`, and never
sets `_started`; the subsequent `stop_all` is therefore a no-op — it stops
NO plugin, although `alpha` is running.  This contradicts the claim that
stop runs on every plugin in reverse load order even after a partial
`start_all` failure. -/
theorem stop_all_noop_after_failed_start :
    (startAll (fun pid => pid = "beta") ⟨["alpha", "beta"], false⟩).2.1 =
      [.startOk "alpha", .startFail "beta"] ∧
    (startAll (fun pid => pid = "beta") ⟨["alpha", "beta"], false⟩).1.started = false ∧
    stopAll (fun _ => false)
        (startAll (fun pid => pid = "beta") ⟨["alpha", "beta"], false⟩).1 =
      ((startAll (fun pid => pid = "beta") ⟨["alpha", "beta"], false⟩).1, []) := by
  refine ⟨by decide, by decide, ?_⟩
  decide

/-- Claim C4 (amended): `start_all` is a no-op when the registry is
already started (and a successful run marks it started, so a second
consecutive call is a no-op); `stop_all` is idempotent; and when the
registry IS started, `stop_all` attempts `stop` on every plugin in
reverse load order even when individual `stop` calls fail.  But after a
`start_all` that failed partway, `_started` is still false and `stop_all`
stops nothing (see the counterexample). -/
theorem lifecycle_idempotent_and_reverse_stop
    (startFails stopFails : String → Bool) (st : RegState) :
    (st.started = true → startAll startFails st = (st, [], true)) ∧
    ((startAll startFails st).2.2 = true → (startAll startFails st).1.started = true) ∧
    (stopAll stopFails (stopAll stopFails st).1 = ((stopAll stopFails st).1, [])) ∧
    (st.started = true →
      ((stopAll stopFails st).2).map LifeEvent.pid = st.loadOrder.reverse) := by
  refine ⟨?_, ?_, ?_, ?_⟩
  · intro h
    simp [startAll, h]
  · intro h
    by_cases hs : st.started
    · simp [startAll, hs]
    · by_cases hr : (startSeq startFails st.loadOrder).2
      · simp [startAll, hs, hr]
      · exfalso
        simp [startAll, hs, hr] at h
  · by_cases hs : st.started
    · simp [stopAll, hs]
    · simp [stopAll, hs]
  · intro h
    simp [stopAll, h, stopSeq_pids]

/-- Claim C4 witness: the amended lifecycle statement at a started
two-plugin registry whose second plugin fails to stop: both stops are
attempted, in reverse order. -/
theorem lifecycle_idempotent_and_reverse_stop_witness :
    (⟨["alpha", "beta"], true⟩ : RegState).started = true ∧
    ((stopAll (fun pid => pid = "beta") ⟨["alpha", "beta"], true⟩).2).map LifeEvent.pid =
      ["beta", "alpha"] :=
  ⟨rfl,
    (lifecycle_idempotent_and_reverse_stop (fun _ => false) (fun pid => pid = "beta")
      ⟨["alpha", "beta"], true⟩).2.2.2 rfl⟩

/-! ## Hook chain: `PluginRegistry.run_hook` (registry.py 232-280)

The loop walks `_load_order`; a plugin that does not override the hook is
skipped; a returned non-None context replaces the current one; if the
current context then carries a truthy `abort` the loop breaks and the
context is returned; an exception from a hook is caught, a synthetic
`on_error` chain is dispatched (unless the failing hook IS `on_error`)
and the loop continues with the unchanged context. -/

/-- The fixed hook-method list `HOOK_METHODS` (base.py). -/
def HOOK_METHODS : List String :=
  ["on_message_received", "transform_system_prompt", "transform_history",
   "on_before_llm_call", "on_after_llm_call", "on_before_tool_exec",
   "on_after_tool_exec", "transform_response", "on_before_send",
   "on_after_send", "on_error"]

/-- Hook context: the Python dict threaded through the chain.  `run_hook`
itself reads only the `abort` key; the synthetic `on_error` context
carries `error` / `hook` / `plugin`; `tag` stands for any other payload. -/
structure HCtx where
  abort : Bool := false
  error : Option String := none
  hook : Option String := none
  plugin : Option String := none
  tag : Nat := 0
deriving DecidableEq

/-- Outcome of invoking one plugin's hook method: a normal return (None
means keep the current context) or a raised exception. -/
inductive HookResult
  | ret (r : Option HCtx)
  | throw (e : String)
deriving DecidableEq

/-- Hook behaviour of the registered plugins: `beh pid hookName` is the
plugin's method for the hook, or `none` when the plugin only inherits the
no-op default (in which case `run_hook` skips it). -/
def HookBeh : Type := String → String → Option (HCtx → HookResult)

/-- The synthetic context dispatched to `on_error` from the except block
in `run_hook`. -/
def mkErrCtx (e hookName pid : String) : HCtx :=
  { abort := false, error := some e, hook := some hookName, plugin := some pid }

/-- Observable hook-chain events: a plugin's hook method being invoked,
and the synthetic `on_error` dispatch performed from the except block. -/
inductive HookEvent
  | call (pid : String) (hookName : String)
  | errDispatch (err : String) (hookName : String) (pid : String)
deriving DecidableEq

/-- Whether an event is the synthetic `on_error` dispatch. -/
def isErrDispatch : HookEvent → Bool
  | .errDispatch _ _ _ => true
  | _ => false

/-- The `run_hook` loop specialised to `hook_name = "on_error"`: on an
exception the guard `hook_name != "on_error"` fails, so no further
dispatch happens and the loop continues.  Returns the final context, the
events, and whether the loop broke on `abort`. -/
def runOnErrorChain (beh : HookBeh) : List String → HCtx → HCtx × List HookEvent × Bool
  | [], ctx => (ctx, [], false)
  | pid :: rest, ctx =>
    match beh pid "on_error" with
    | none => runOnErrorChain beh rest ctx
    | some f =>
      match f ctx with
      | .throw _ =>
        let r := runOnErrorChain beh rest ctx
        (r.1, .call pid "on_error" :: r.2.1, r.2.2)
      | .ret r0 =>
        let ctx2 := r0.getD ctx
        if ctx2.abort then (ctx2, [.call pid "on_error"], true)
        else
          let r := runOnErrorChain beh rest ctx2
          (r.1, .call pid "on_error" :: r.2.1, r.2.2)

/-- The `run_hook` loop for a hook other than `on_error`: an exception is
caught, the synthetic `on_error` chain runs over the full load order
(`dOrder`), its resulting context is discarded, and the loop continues
with the prior context. -/
def runHookChain (beh : HookBeh) (hookName : String) (dOrder : List String) :
    List String → HCtx → HCtx × List HookEvent × Bool
  | [], ctx => (ctx, [], false)
  | pid :: rest, ctx =>
    match beh pid hookName with
    | none => runHookChain beh hookName dOrder rest ctx
    | some f =>
      match f ctx with
      | .throw e =>
        let sub := runOnErrorChain beh dOrder (mkErrCtx e hookName pid)
        let r := runHookChain beh hookName dOrder rest ctx
        (r.1, .call pid hookName :: .errDispatch e hookName pid :: (sub.2.1 ++ r.2.1),
          r.2.2)
      | .ret r0 =>
        let ctx2 := r0.getD ctx
        if ctx2.abort then (ctx2, [.call pid hookName], true)
        else
          let r := runHookChain beh hookName dOrder rest ctx2
          (r.1, .call pid hookName :: r.2.1, r.2.2)

/-- Embedding of `PluginRegistry.run_hook`: unknown hook names return the
context untouched; `on_error` runs without further dispatch; every other
hook runs with exception dispatch over the load order. -/
def run_hook (beh : HookBeh) (hookName : String) (order : List String) (ctx : HCtx) :
    HCtx × List HookEvent × Bool :=
  if hookName ∈ HOOK_METHODS then
    if hookName = "on_error" then runOnErrorChain beh order ctx
    else runHookChain beh hookName order order ctx
  else (ctx, [], false)

theorem runHookChain_append (beh : HookBeh) (hookName : String)
    (dOrder : List String) (l1 l2 : List String) (ctx : HCtx) :
    runHookChain beh hookName dOrder (l1 ++ l2) ctx =
      (if (runHookChain beh hookName dOrder l1 ctx).2.2 then
        runHookChain beh hookName dOrder l1 ctx
      else
        ((runHookChain beh hookName dOrder l2 (runHookChain beh hookName dOrder l1 ctx).1).1,
          (runHookChain beh hookName dOrder l1 ctx).2.1 ++
            (runHookChain beh hookName dOrder l2
              (runHookChain beh hookName dOrder l1 ctx).1).2.1,
          (runHookChain beh hookName dOrder l2
            (runHookChain beh hookName dOrder l1 ctx).1).2.2)) := by
  induction l1 generalizing ctx with
  | nil => simp [runHookChain]
  | cons pid rest ih =>
    cases hb : beh pid hookName with
    | none =>
      simp only [List.cons_append, runHookChain, hb, List.append_eq]
      exact ih ctx
    | some f =>
      cases hf : f ctx with
      | throw e =>
        simp only [List.cons_append, runHookChain, hb, hf, List.append_eq]
        rw [ih ctx]
        by_cases hbk : (runHookChain beh hookName dOrder rest ctx).2.2 <;> simp [hbk]
      | ret r0 =>
        by_cases hab : (r0.getD ctx).abort
        · simp [List.cons_append, runHookChain, hb, hf, hab]
        · simp only [List.cons_append, runHookChain, hb, hf, hab, ite_false,
            List.append_eq]
          rw [ih (r0.getD ctx)]
          by_cases hbk : (runHookChain beh hookName dOrder rest (r0.getD ctx)).2.2 <;>
            simp [hbk]

/-- Claim C5: in `run_hook`, as soon as a plugin's returned context
carries `abort == true`, iteration stops, that context is returned as-is,
and no plugin later in the load order has its hook invoked: with the
plugins before `p` having run without break to context `c1`, if `p`
returns a context with `abort` set, the whole chain over
`l1 ++ p :: l2` returns that context with only `p`'s invocation appended
to the trace — nothing from `l2`. -/
theorem run_hook_abort_short_circuits
    (beh : HookBeh) (hookName : String) (l1 l2 : List String) (p : String)
    (ctx c1 : HCtx) (t1 : List HookEvent) (f : HCtx → HookResult) (r0 : Option HCtx)
    (hmem : hookName ∈ HOOK_METHODS) (hne : hookName ≠ "on_error")
    (hpre : runHookChain beh hookName (l1 ++ p :: l2) l1 ctx = (c1, t1, false))
    (hf : beh p hookName = some f) (hr : f c1 = .ret r0)
    (habort : (r0.getD c1).abort = true) :
    run_hook beh hookName (l1 ++ p :: l2) ctx =
      (r0.getD c1, t1 ++ [.call p hookName], true) := by
  have hstep : runHookChain beh hookName (l1 ++ p :: l2) (p :: l2) c1 =
      (r0.getD c1, [.call p hookName], true) := by
    simp only [runHookChain, hf, hr, habort, ite_true]
  rw [run_hook, if_pos hmem, if_neg hne, runHookChain_append, hpre]
  simp [hstep]

/-- Claim C5 witness: two plugins on `on_before_send`; the first returns
an aborting context, the second is never invoked and the aborting context
comes back as-is. -/
theorem run_hook_abort_short_circuits_witness :
    run_hook
      (fun pid _ =>
        if pid = "p1" then some (fun c => .ret (some { c with abort := true, tag := 7 }))
        else some (fun c => .ret (some { c with tag := 99 })))
      "on_before_send" ["p1", "p2"] {} =
      ({ abort := true, tag := 7 }, [.call "p1" "on_before_send"], true) := by
  have h := run_hook_abort_short_circuits
    (fun pid _ =>
      if pid = "p1" then some (fun c => .ret (some { c with abort := true, tag := 7 }))
      else some (fun c => .ret (some { c with tag := 99 })))
    "on_before_send" [] ["p2"] "p1" {} {} []
    (fun c => HookResult.ret (some { c with abort := true, tag := 7 }))
    (some { abort := true, tag := 7 })
    (by decide) (by decide) (by simp [runHookChain]) (by simp) (by simp) (by simp)
  simpa using h

theorem runOnErrorChain_events_are_calls (beh : HookBeh) :
    ∀ (order : List String) (ctx : HCtx),
      ∀ ev ∈ (runOnErrorChain beh order ctx).2.1, isErrDispatch ev = false := by
  intro order
  induction order with
  | nil => intro ctx ev hev; simp [runOnErrorChain] at hev
  | cons pid rest ih =>
    intro ctx ev hev
    cases hb : beh pid "on_error" with
    | none =>
      simp only [runOnErrorChain, hb] at hev
      exact ih ctx ev hev
    | some f =>
      cases hf : f ctx with
      | throw e =>
        simp only [runOnErrorChain, hb, hf, List.mem_cons] at hev
        rcases hev with h | h
        · subst h; rfl
        · exact ih ctx ev h
      | ret r0 =>
        by_cases hab : (r0.getD ctx).abort
        · simp only [runOnErrorChain, hb, hf, hab, ite_true, List.mem_singleton] at hev
          subst hev; rfl
        · simp only [runOnErrorChain, hb, hf, hab, Bool.false_eq_true, ite_false,
            List.mem_cons] at hev
          rcases hev with h | h
          · subst h; rfl
          · exact ih (r0.getD ctx) ev h

/-- Claim C6: an exception inside a hook is caught and the chain
continues with the prior context (the next plugins in load order still
run); a synthetic `on_error` dispatch occurs for the failure; and
`on_error` is never re-entered recursively — a `run_hook` on `on_error`
itself produces no `errDispatch` event, whatever its plugins throw. -/
theorem run_hook_exception_caught_dispatches_on_error
    (beh : HookBeh) (hookName : String) (l1 l2 : List String) (p : String)
    (ctx c1 : HCtx) (t1 : List HookEvent) (f : HCtx → HookResult) (e : String)
    (hmem : hookName ∈ HOOK_METHODS) (hne : hookName ≠ "on_error")
    (hpre : runHookChain beh hookName (l1 ++ p :: l2) l1 ctx = (c1, t1, false))
    (hf : beh p hookName = some f) (he : f c1 = .throw e) :
    (run_hook beh hookName (l1 ++ p :: l2) ctx =
      ((runHookChain beh hookName (l1 ++ p :: l2) l2 c1).1,
        t1 ++ .call p hookName :: .errDispatch e hookName p ::
          ((runOnErrorChain beh (l1 ++ p :: l2) (mkErrCtx e hookName p)).2.1 ++
            (runHookChain beh hookName (l1 ++ p :: l2) l2 c1).2.1),
        (runHookChain beh hookName (l1 ++ p :: l2) l2 c1).2.2)) ∧
    (∀ (beh2 : HookBeh) (order2 : List String) (ctx2 : HCtx),
      ∀ ev ∈ (run_hook beh2 "on_error" order2 ctx2).2.1, isErrDispatch ev = false) := by
  constructor
  · have hstep : runHookChain beh hookName (l1 ++ p :: l2) (p :: l2) c1 =
        ((runHookChain beh hookName (l1 ++ p :: l2) l2 c1).1,
          .call p hookName :: .errDispatch e hookName p ::
            ((runOnErrorChain beh (l1 ++ p :: l2) (mkErrCtx e hookName p)).2.1 ++
              (runHookChain beh hookName (l1 ++ p :: l2) l2 c1).2.1),
          (runHookChain beh hookName (l1 ++ p :: l2) l2 c1).2.2) := by
      simp only [runHookChain, hf, he]
    rw [run_hook, if_pos hmem, if_neg hne, runHookChain_append, hpre]
    simp [hstep]
  · intro beh2 order2 ctx2 ev hev
    by_cases hm : "on_error" ∈ HOOK_METHODS
    · simp only [run_hook, if_pos hm, ite_true, if_pos rfl] at hev
      exact runOnErrorChain_events_are_calls beh2 order2 ctx2 ev hev
    · simp [run_hook, hm] at hev

/-- Claim C6 witness: two plugins on `transform_response`; the first
throws, the second (which also implements `on_error`) still runs with the
untouched context, and the synthetic `on_error` dispatch is visible in
the trace. -/
theorem run_hook_exception_caught_dispatches_on_error_witness :
    run_hook
      (fun pid hookName =>
        if pid = "p1" ∧ hookName = "transform_response" then
          some (fun _ => .throw "boom")
        else if pid = "p2" then some (fun c => .ret (some { c with tag := c.tag + 1 }))
        else none)
      "transform_response" ["p1", "p2"] {} =
      ({ tag := 1 },
        [.call "p1" "transform_response",
         .errDispatch "boom" "transform_response" "p1",
         .call "p2" "on_error",
         .call "p2" "transform_response"], false) := by
  have h := (run_hook_exception_caught_dispatches_on_error
    (fun pid hookName =>
      if pid = "p1" ∧ hookName = "transform_response" then
        some (fun _ => HookResult.throw "boom")
      else if pid = "p2" then some (fun c => .ret (some { c with tag := c.tag + 1 }))
      else none)
    "transform_response" [] ["p2"] "p1" {} {} []
    (fun _ => HookResult.throw "boom") "boom"
    (by decide) (by decide) (by simp [runHookChain]) (by simp) (by simp)).1
  simp only [List.nil_append] at h
  rw [h]
  decide

/-! ## Pairing store (plugins/pairing/storage.py)

`PairingStorage` keeps `authorized` and `pending` lists, caches the
backing file's modification time in `_last_mtime`, reloads before reads
when the file's mtime has advanced, and rewrites the whole file on every
mutation via `open(path, "w")` — a direct in-place write, not a temp-file
rename, and `_save` does not touch `_last_mtime`.  We model the parsed
YAML as structured data, file mtimes as naturals, and pass the current
time and the randomly generated code / ISO timestamps as parameters. -/

/-- An `authorized` entry of the pairing store. -/
structure AuthorizedUser where
  channel : String
  user_id : String
  name : String
  approved_at : String
deriving DecidableEq

/-- A `pending` entry of the pairing store. -/
structure PendingRequest where
  channel : String
  user_id : String
  name : String
  code : String
  requested_at : String
deriving DecidableEq

/-- The parsed content of the pairing YAML file. -/
structure PairData where
  authorized : List AuthorizedUser
  pending : List PendingRequest
deriving DecidableEq

/-- The backing file as the store sees it: parsed content and mtime when
the file exists. -/
def PairFS : Type := Option (PairData × Nat)

/-- The in-memory `PairingStorage` state. -/
structure PairStore where
  authorized : List AuthorizedUser
  pending : List PendingRequest
  last_mtime : Nat
deriving DecidableEq

/-- Embedding of `PairingStorage._save` (storage.py 94-104): write the
whole current data to the path, which stamps the file with the current
time; the cached `_last_mtime` is NOT updated. -/
def save (st : PairStore) (now : Nat) : PairStore × PairFS :=
  (st, some (⟨st.authorized, st.pending⟩, now))

/-- Embedding of `PairingStorage._load`: no-op when the file is missing,
otherwise cache the file's mtime and replace both lists. -/
def load (st : PairStore) (fs : PairFS) : PairStore :=
  match fs with
  | none => st
  | some (d, m) => ⟨d.authorized, d.pending, m⟩

/-- Embedding of `PairingStorage._reload_if_changed` (storage.py 83-92):
reload only when the file exists and its mtime is newer than the cache. -/
def reload_if_changed (st : PairStore) (fs : PairFS) : PairStore :=
  match fs with
  | none => st
  | some (_, m) => if st.last_mtime < m then load st fs else st

/-- Embedding of `PairingStorage.is_authorized`: mtime-guarded reload,
then a scan of `authorized`. -/
def is_authorized (st : PairStore) (fs : PairFS) (channel user_id : String) :
    PairStore × Bool :=
  let st2 := reload_if_changed st fs
  (st2, st2.authorized.any (fun u => u.channel == channel && u.user_id == user_id))

/-- Embedding of `PairingStorage.add_pending`: return the existing request
for this (channel, user) if any; otherwise append a new one (with the
supplied fresh `code` and timestamp) and `_save`. -/
def add_pending (st : PairStore) (fs : PairFS) (now : Nat)
    (channel user_id name code requested_at : String) :
    PairStore × PairFS × PendingRequest :=
  match st.pending.find? (fun r => r.channel == channel && r.user_id == user_id) with
  | some req => (st, fs, req)
  | none =>
    let req : PendingRequest := ⟨channel, user_id, name, code, requested_at⟩
    let p := save { st with pending := st.pending ++ [req] } now
    (p.1, p.2, req)

/-- Embedding of `PairingStorage.approve`: look up the pending request by
(uppercased) code; when found, drop it from `pending`, append an
authorized user, and `_save`. -/
def approve (st : PairStore) (fs : PairFS) (now : Nat) (code approved_at : String) :
    PairStore × PairFS × Option AuthorizedUser :=
  match st.pending.find? (fun r => r.code == code.toUpper) with
  | none => (st, fs, none)
  | some req =>
    let user : AuthorizedUser := ⟨req.channel, req.user_id, req.name, approved_at⟩
    let p := save { st with
      pending := st.pending.filter (fun r => !(r.code == req.code)),
      authorized := st.authorized ++ [user] } now
    (p.1, p.2, some user)

/-- Embedding of `PairingStorage.reject`: drop the pending request by
code and `_save`; false when the code is unknown. -/
def reject (st : PairStore) (fs : PairFS) (now : Nat) (code : String) :
    PairStore × PairFS × Bool :=
  match st.pending.find? (fun r => r.code == code.toUpper) with
  | none => (st, fs, false)
  | some req =>
    let p := save { st with
      pending := st.pending.filter (fun r => !(r.code == req.code)) } now
    (p.1, p.2, true)

/-- Embedding of `PairingStorage.revoke`: filter `authorized`; `_save`
only when something was removed. -/
def revoke (st : PairStore) (fs : PairFS) (now : Nat) (channel user_id : String) :
    PairStore × PairFS × Bool :=
  let kept := st.authorized.filter
    (fun u => !(u.channel == channel && u.user_id == user_id))
  if kept.length < st.authorized.length then
    let p := save { st with authorized := kept } now
    (p.1, p.2, true)
  else (st, fs, false)

/-- Embedding of `PairingStorage.add_authorized`: return the existing
entry when the (mtime-guarded) authorization check finds one; otherwise
append (with `owner:` fallback name) and `_save`. -/
def add_authorized (st : PairStore) (fs : PairFS) (now : Nat)
    (channel user_id name approved_at : String) :
    PairStore × PairFS × AuthorizedUser :=
  let chk := is_authorized st fs channel user_id
  match (if chk.2 then
      chk.1.authorized.find? (fun u => u.channel == channel && u.user_id == user_id)
    else none) with
  | some u => (chk.1, fs, u)
  | none =>
    let user : AuthorizedUser :=
      ⟨channel, user_id, (if name == "" then "owner:" ++ user_id else name), approved_at⟩
    let p := save { chk.1 with authorized := chk.1.authorized ++ [user] } now
    (p.1, p.2, user)

/-- A fresh store (path does not exist yet; `_last_mtime` stays 0). -/
def emptyStore : PairStore := ⟨[], [], 0⟩

/-- Claim C7 counterexample: the claim says every mutation refreshes the
cached modification timestamp to the file's current one.  Adding a
pending request to a fresh store at time 5 stamps the file with mtime 5
but leaves the cached `_last_mtime` at 0: `_save` never updates it (and
the write is a plain `open(path, "w")`, not a rename-replace). -/
theorem pairing_save_leaves_cached_mtime_stale :
    (add_pending emptyStore none 5 "telegram" "999" "bob" "ABCDEFGH" "t0").2.1 =
      some (⟨[], [⟨"telegram", "999", "bob", "ABCDEFGH", "t0"⟩]⟩, 5) ∧
    (add_pending emptyStore none 5 "telegram" "999" "bob" "ABCDEFGH" "t0").1.last_mtime
      = 0 := by
  constructor <;> rfl

theorem reload_if_changed_mtime_lt (st : PairStore) (fs : PairFS) (now : Nat)
    (hcache : st.last_mtime < now) (hfs : ∀ d m, fs = some (d, m) → m < now) :
    (reload_if_changed st fs).last_mtime < now := by
  match fs with
  | none => exact hcache
  | some (d, m) =>
    simp only [reload_if_changed, load]
    by_cases h : st.last_mtime < m
    · simp only [h, ite_true]
      exact hfs d m rfl
    · simp only [h, ite_false]
      exact hcache

/-- Claim C7 (amended): every mutating operation of the pairing store
that actually writes rewrites the whole backing file in one plain
in-place write, stamping it with the current time — but none of them
refreshes the cached modification timestamp: when the mutation happens
strictly after both the cached mtime and the file's mtime, the cache
stays strictly older than the file (so the next mtime-guarded read
reloads from disk). -/
theorem pairing_mutations_rewrite_file_without_mtime_refresh
    (st : PairStore) (fs : PairFS) (now : Nat)
    (ch uid nm code ts : String)
    (hcache : st.last_mtime < now) (hfs : ∀ d m, fs = some (d, m) → m < now) :
    ((st.pending.find? (fun r => r.channel == ch && r.user_id == uid) = none →
        (∃ d, (add_pending st fs now ch uid nm code ts).2.1 = some (d, now)) ∧
        (add_pending st fs now ch uid nm code ts).1.last_mtime < now)) ∧
    (((st.pending.find? (fun r => r.code == code.toUpper)).isSome = true →
        (∃ d, (approve st fs now code ts).2.1 = some (d, now)) ∧
        (approve st fs now code ts).1.last_mtime < now)) ∧
    (((st.pending.find? (fun r => r.code == code.toUpper)).isSome = true →
        (∃ d, (reject st fs now code).2.1 = some (d, now)) ∧
        (reject st fs now code).1.last_mtime < now)) ∧
    (((st.authorized.filter
          (fun u => !(u.channel == ch && u.user_id == uid))).length
        < st.authorized.length →
        (∃ d, (revoke st fs now ch uid).2.1 = some (d, now)) ∧
        (revoke st fs now ch uid).1.last_mtime < now)) ∧
    (((is_authorized st fs ch uid).2 = false →
        (∃ d, (add_authorized st fs now ch uid nm ts).2.1 = some (d, now)) ∧
        (add_authorized st fs now ch uid nm ts).1.last_mtime < now)) := by
  refine ⟨?_, ?_, ?_, ?_, ?_⟩
  · intro hfind
    simp only [add_pending, hfind, save]
    exact ⟨⟨_, rfl⟩, hcache⟩
  · intro hfind
    rcases Option.isSome_iff_exists.mp hfind with ⟨req, hreq⟩
    simp only [approve, hreq, save]
    exact ⟨⟨_, rfl⟩, hcache⟩
  · intro hfind
    rcases Option.isSome_iff_exists.mp hfind with ⟨req, hreq⟩
    simp only [reject, hreq, save]
    exact ⟨⟨_, rfl⟩, hcache⟩
  · intro hlen
    simp only [revoke, hlen, ite_true, save]
    exact ⟨⟨_, rfl⟩, hcache⟩
  · intro hchk
    simp only [add_authorized, hchk, Bool.false_eq_true, ite_false, save]
    exact ⟨⟨_, rfl⟩,
      reload_if_changed_mtime_lt st fs now hcache hfs⟩

/-- Claim C7 witness: adding a pending request to a fresh store at time 5
writes the file with mtime 5 while the cached mtime stays below 5. -/
theorem pairing_mutations_rewrite_file_without_mtime_refresh_witness :
    emptyStore.last_mtime < 5 ∧
    (emptyStore.pending.find?
       (fun r => r.channel == "telegram" && r.user_id == "999") = none) ∧
    ((∃ d, (add_pending emptyStore none 5 "telegram" "999" "bob" "CODE" "t0").2.1 =
        some (d, 5)) ∧
      (add_pending emptyStore none 5 "telegram" "999" "bob" "CODE" "t0").1.last_mtime
        < 5) :=
  ⟨by decide, by rfl,
    (pairing_mutations_rewrite_file_without_mtime_refresh emptyStore none 5
      "telegram" "999" "bob" "CODE" "t0" (by decide)
      (fun d m h => by simp at h)).1 (by rfl)⟩

/-! ## Pairing plugin hook (plugins/pairing/plugin.py 126-161) -/

/-- The plugin state `on_message_received` reads. -/
structure PairingPluginState where
  enabled : Bool
  skip_channels : List String
  storage : Option PairStore
deriving DecidableEq

/-- The hook-context fields the pairing hook reads via `ctx.get` (a
missing key yields the documented default). -/
structure MsgCtx where
  sender : Option String := none
  sender_id : Option String := none
  channel_type : Option String := none
  channel_id : Option String := none
  abort : Bool := false
deriving DecidableEq

/-- Embedding of `PairingPlugin.on_message_received`: disabled or
storage-less plugins pass the context through; empty/missing channel or
sender pass through; skip-listed channels pass through; authorized users
pass through (after the mtime-guarded reload); otherwise a pending
request is ensured (with the supplied fresh code/timestamp), the pairing
instructions are sent out of band, and `abort` is set.  Returns the
context, the plugin's storage, and the file state. -/
def pairing_on_message_received (ps : PairingPluginState) (fs : PairFS) (now : Nat)
    (code ts : String) (ctx : MsgCtx) : MsgCtx × Option PairStore × PairFS :=
  if ps.enabled = false then (ctx, ps.storage, fs)
  else
    match ps.storage with
    | none => (ctx, ps.storage, fs)
    | some st =>
      let channel := ctx.channel_type.getD ""
      let user_id := ctx.sender_id.getD ""
      let user_name := ctx.sender.getD "unknown"
      if channel = "" ∨ user_id = "" then (ctx, some st, fs)
      else if channel ∈ ps.skip_channels then (ctx, some st, fs)
      else
        let chk := is_authorized st fs channel user_id
        if chk.2 then (ctx, some chk.1, fs)
        else
          let r := add_pending chk.1 fs now channel user_id user_name code ts
          ({ ctx with abort := true }, some r.1, r.2.1)

/-- Claim C10: when `channel_type` or `sender_id` is missing or empty,
the pairing hook returns the context unchanged even when pairing is
enabled: no authorization check runs, the storage and file are untouched,
no pending request is created, and `abort` stays unset — such messages
pass the authorization gate. -/
theorem pairing_passes_empty_channel_or_sender
    (ps : PairingPluginState) (fs : PairFS) (now : Nat) (code ts : String)
    (ctx : MsgCtx)
    (h : ctx.channel_type.getD "" = "" ∨ ctx.sender_id.getD "" = "") :
    pairing_on_message_received ps fs now code ts ctx = (ctx, ps.storage, fs) := by
  by_cases he : ps.enabled = false
  · simp [pairing_on_message_received, he]
  · match hs : ps.storage with
    | none =>
      simp [pairing_on_message_received, he, hs]
    | some st =>
      simp only [pairing_on_message_received, he, Bool.false_eq_true, ite_false, hs]
      rw [if_pos h]
      simp

/-- Claim C10 witness: enabled plugin with a live store; a context whose
`sender_id` is present but empty passes straight through. -/
theorem pairing_passes_empty_channel_or_sender_witness :
    ((some "telegram" : Option String).getD "" = "" ∨
      ((some "" : Option String).getD "" = "")) ∧
    pairing_on_message_received ⟨true, [], some emptyStore⟩ none 5 "CODE" "t0"
        { sender := some "eve", sender_id := some "", channel_type := some "telegram" } =
      ({ sender := some "eve", sender_id := some "", channel_type := some "telegram" },
        some emptyStore, none) :=
  ⟨Or.inr rfl,
    pairing_passes_empty_channel_or_sender ⟨true, [], some emptyStore⟩ none 5 "CODE" "t0"
      { sender := some "eve", sender_id := some "", channel_type := some "telegram" }
      (Or.inr rfl)⟩

/-! ## Cobot.respond (agent.py 75-207)

The LLM/tool inner loop.  The hook dispatcher `run` never raises (it
catches every hook exception, as proved for `run_hook` above), so it is a
total function parameter; the LLM call and its `LLMError` are modelled
with `Except`.  `respond` returns the reply text and the trace of hook
dispatches (hook name and the context passed in). -/

/-- A tool call as it appears on an `LLMResponse`; `args` stands for the
already-parsed arguments mapping. -/
structure ToolCall where
  id : String
  name : String
  args : String
deriving DecidableEq

/-- A chat message dict: `content` may be absent/None (assistant turns
built from a None `response.content`). -/
structure Msg where
  role : String
  content : Option String := none
  tool_calls : List ToolCall := []
  tool_call_id : Option String := none
deriving DecidableEq

/-- The `LLMError` exception: `str(e)` is its message. -/
structure LLMError where
  msg : String
deriving DecidableEq

/-- The provider's chat response. -/
structure LLMResponse where
  content : Option String
  model : String
  tokens_in : Nat
  tokens_out : Nat
  tool_calls : List ToolCall
  has_tool_calls : Bool
deriving DecidableEq

/-- The context dict passed to / returned by `run` during `respond`;
only the keys the orchestrator reads or writes are modelled. -/
structure RunCtx where
  prompt : Option String := none
  peer : Option String := none
  messages : Option (List Msg) := none
  model : Option String := none
  tools : Option (List String) := none
  response : Option String := none
  tokens_in : Option Nat := none
  tokens_out : Option Nat := none
  has_tool_calls : Option Bool := none
  abort : Bool := false
  abort_message : Option String := none
  text : Option String := none
  recipient : Option String := none
  tool : Option String := none
  args : Option String := none
  result : Option String := none
  error : Option String := none
  hook : Option String := none
deriving DecidableEq

/-- The collaborators `respond` reaches: the LLM provider (capability
lookup and `chat`), the tools provider, and the global hook dispatcher
`run` (total: `run_hook` absorbs hook exceptions). -/
structure RespondEnv where
  hasLLM : Bool
  soul : String
  providerName : String
  chat : List Msg → Option (List String) → Except LLMError LLMResponse
  toolsPresent : Bool
  toolDefs : List String
  execute : String → String → String
  run : String → RunCtx → RunCtx

/-- The tool-call for-loop inside one round of `respond`: for each call,
`on_before_tool_exec` (abort substitutes its message as the result), tool
execution, `on_after_tool_exec`, and a `tool`-role turn appended. -/
def execToolCalls (env : RespondEnv) :
    List ToolCall → List Msg → List Msg × List (String × RunCtx)
  | [], msgs => (msgs, [])
  | tc :: rest, msgs =>
    let ctxIn : RunCtx := { tool := some tc.name, args := some tc.args }
    let ctx1 := env.run "on_before_tool_exec" ctxIn
    let result :=
      if ctx1.abort then ctx1.abort_message.getD "Blocked."
      else if env.toolsPresent then env.execute tc.name tc.args
      else "Error: Tools not available"
    let ctxAfter : RunCtx :=
      { tool := some tc.name, args := some tc.args, result := some result }
    let r := execToolCalls env rest
      (msgs ++ [{ role := "tool", content := some result, tool_call_id := some tc.id }])
    (r.1, ("on_before_tool_exec", ctxIn) :: ("on_after_tool_exec", ctxAfter) :: r.2)

/-- Result of the bounded `for _ in range(max_rounds)` loop. -/
inductive LoopResult
  | earlyReturn (s : String)
  | llmFailed (e : LLMError)
  | done (msgs : List Msg) (resp : Option LLMResponse)
deriving DecidableEq

/-- One-to-`fuel` rounds of the inner loop: `on_before_llm_call` (abort
returns the abort message), the LLM call (an `LLMError` escapes to the
enclosing handler), `on_after_llm_call`, break without tool calls,
otherwise append the assistant turn, execute the tool calls, and loop.
At fuel 0 (10 rounds exhausted) the current response is kept as final. -/
def respondLoop (env : RespondEnv) (defs : List String) :
    Nat → List Msg → Option LLMResponse → LoopResult × List (String × RunCtx)
  | 0, msgs, lastResp => (.done msgs lastResp, [])
  | fuel + 1, msgs, _lastResp =>
    let ctxIn : RunCtx :=
      { messages := some msgs, model := some env.providerName, tools := some defs }
    let ctxB := env.run "on_before_llm_call" ctxIn
    if ctxB.abort then
      (.earlyReturn (ctxB.abort_message.getD "Request aborted."),
        [("on_before_llm_call", ctxIn)])
    else
      match env.chat msgs (if defs.isEmpty then none else some defs) with
      | .error e => (.llmFailed e, [("on_before_llm_call", ctxIn)])
      | .ok resp =>
        let ctxA : RunCtx :=
          { response := resp.content, model := some resp.model,
            tokens_in := some resp.tokens_in, tokens_out := some resp.tokens_out,
            has_tool_calls := some resp.has_tool_calls }
        if resp.has_tool_calls = false then
          (.done msgs (some resp),
            [("on_before_llm_call", ctxIn), ("on_after_llm_call", ctxA)])
        else
          let msgs2 := msgs ++
            [{ role := "assistant", content := resp.content,
               tool_calls := resp.tool_calls }]
          let r := execToolCalls env resp.tool_calls msgs2
          let rr := respondLoop env defs fuel r.1 (some resp)
          (rr.1, ("on_before_llm_call", ctxIn) :: ("on_after_llm_call", ctxA) ::
            (r.2 ++ rr.2))

/-- The prologue of `respond`: seed `[system: soul, user: message]`, run
`transform_system_prompt` (replacing the system content) and
`transform_history` (replacing the whole list). -/
def respondPrep (env : RespondEnv) (message sender : String) :
    List Msg × List (String × RunCtx) :=
  let msgs0 : List Msg :=
    [{ role := "system", content := some env.soul },
     { role := "user", content := some message }]
  let ctxP : RunCtx :=
    { prompt := some env.soul, peer := some sender, messages := some msgs0 }
  let ctx1 := env.run "transform_system_prompt" ctxP
  let msgs1 : List Msg :=
    [{ role := "system", content := some (ctx1.prompt.getD env.soul) },
     { role := "user", content := some message }]
  let ctxH : RunCtx := { messages := some msgs1, peer := some sender }
  let ctx2 := env.run "transform_history" ctxH
  (ctx2.messages.getD msgs1,
    [("transform_system_prompt", ctxP), ("transform_history", ctxH)])

/-- Embedding of `Cobot.respond`: no LLM yields an error string; the
prologue and the bounded loop run inside the `try`; an `abort` from
`on_before_llm_call` returns its message directly; a normal exit runs
`transform_response` and substitutes the placeholder for blank replies;
an `LLMError` is caught, `on_error` is dispatched with hook `llm_call`,
and the `Error: <message>` string is returned — never an exception. -/
def respond (env : RespondEnv) (message sender : String) :
    String × List (String × RunCtx) :=
  if env.hasLLM = false then ("Error: No LLM configured", [])
  else
    let defs := if env.toolsPresent then env.toolDefs else []
    let prep := respondPrep env message sender
    let lr := respondLoop env defs 10 prep.1 none
    match lr.1 with
    | .earlyReturn s => (s, prep.2 ++ lr.2)
    | .llmFailed e =>
      ("Error: " ++ e.msg,
        prep.2 ++ lr.2 ++
          [("on_error", { error := some e.msg, hook := some "llm_call" })])
    | .done _ resp =>
      let baseText := (resp.map (fun r => r.content.getD "")).getD ""
      let ctxT : RunCtx := { text := some baseText, recipient := some sender }
      let ctx3 := env.run "transform_response" ctxT
      let finalText := ctx3.text.getD baseText
      let out :=
        if finalText.trim = "" then
          "(No response generated - model may have hit token limit)"
        else finalText
      (out, prep.2 ++ lr.2 ++ [("transform_response", ctxT)])

/-- Claim C8: whenever the inner loop raises an `LLMError`, `respond`
returns the string `Error: <message>` and its trace contains the
`on_error` dispatch with hook `llm_call`; `respond` is a total function,
so the exception never propagates to the caller. -/
theorem respond_llm_error_caught
    (env : RespondEnv) (message sender : String) (e : LLMError)
    (hllm : env.hasLLM = true)
    (hfail : (respondLoop env (if env.toolsPresent then env.toolDefs else [])
        10 (respondPrep env message sender).1 none).1 = .llmFailed e) :
    (respond env message sender).1 = "Error: " ++ e.msg ∧
    ("on_error", ({ error := some e.msg, hook := some "llm_call" } : RunCtx)) ∈
      (respond env message sender).2 := by
  constructor <;> simp [respond, hllm, hfail]

/-- Concrete environment whose provider always fails with `boom`. -/
def envBoom : RespondEnv :=
  { hasLLM := true, soul := "soul", providerName := "ppq",
    chat := fun _ _ => .error ⟨"boom"⟩, toolsPresent := false, toolDefs := [],
    execute := fun _ _ => "", run := fun _ c => c }

/-- Claim C8 witness: the failing provider makes `respond` return
`Error: boom` and dispatch `on_error` with hook `llm_call`. -/
theorem respond_llm_error_caught_witness :
    envBoom.hasLLM = true ∧
    (respondLoop envBoom (if envBoom.toolsPresent then envBoom.toolDefs else [])
        10 (respondPrep envBoom "hi" "bob").1 none).1 = .llmFailed ⟨"boom"⟩ ∧
    ((respond envBoom "hi" "bob").1 = "Error: " ++ "boom" ∧
      ("on_error", ({ error := some "boom", hook := some "llm_call" } : RunCtx)) ∈
        (respond envBoom "hi" "bob").2) :=
  ⟨rfl, by decide,
    respond_llm_error_caught envBoom "hi" "bob" ⟨"boom"⟩ rfl (by decide)⟩

/-! ## Compaction plugin (plugins/compaction/plugin.py)

`transform_history` splits the input into an optional leading system
turn, an optional trailing user turn, and the middle `history`; it
estimates tokens over the HISTORY only, returns the input unchanged at or
under `MAX_TOKENS`, and otherwise walks the history back-to-front keeping
a recent suffix of at most `TARGET_RECENT_TOKENS`, summarising the rest.
The summarisation LLM call is abstracted as the `summarize` parameter. -/

/-- Token budget configuration (plugin.py module constants). -/
def MAX_TOKENS : Nat := 12000

/-- Target size of the retained recent suffix. -/
def TARGET_RECENT_TOKENS : Nat := 4000

/-- Characters-per-token approximation. -/
def CHARS_PER_TOKEN : Nat := 4

/-- Character count of a message: `len(m.get("content", ""))`. -/
def msgChars (m : Msg) : Nat := (m.content.getD "").length

/-- Embedding of `CompactionPlugin._estimate_tokens` (plugin.py 44-46):
total characters, floor-divided by 4. -/
def estimate_tokens (messages : List Msg) : Nat :=
  (messages.map msgChars).sum / CHARS_PER_TOKEN

/-- Per-message token estimate used by the split loop (plugin.py 121). -/
def msgTokens (m : Msg) : Nat := msgChars m / CHARS_PER_TOKEN

/-- The leading turn when it is a `system` turn (plugin.py 94). -/
def leadingSystem (messages : List Msg) : Option Msg :=
  match messages.head? with
  | some m => if m.role = "system" then some m else none
  | none => none

/-- The trailing turn when it is a `user` turn (plugin.py 95). -/
def trailingUser (messages : List Msg) : Option Msg :=
  match messages.getLast? with
  | some m => if m.role = "user" then some m else none
  | none => none

/-- The middle slice the plugin compacts (plugin.py 97-104). -/
def historyOf (messages : List Msg) : List Msg :=
  match leadingSystem messages, trailingUser messages with
  | some _, some _ => (messages.drop 1).dropLast
  | some _, none => messages.drop 1
  | none, some _ => messages.dropLast
  | none, none => messages

/-- The back-to-front walk of plugin.py 117-125, on the REVERSED history:
`some k` means the loop broke (set `split_index = i + 1`) after keeping
`k` messages whose running token sum stayed within budget; `none` means
the loop never broke (so `split_index` keeps its initial value
`len(history)` and the recent slice is empty). -/
def keepFromEnd : List Msg → Nat → Option Nat
  | [], _ => none
  | m :: rest, acc =>
    if TARGET_RECENT_TOKENS < acc + msgTokens m then some 0
    else (keepFromEnd rest (acc + msgTokens m)).map (fun k => k + 1)

/-- The resulting `split_index`. -/
def splitIndex (history : List Msg) : Nat :=
  history.length - (keepFromEnd history.reverse 0).getD 0

/-- The synthetic system turn carrying the summary (plugin.py 139-141). -/
def summaryMsg (summary : String) : Msg :=
  { role := "system",
    content := some ("[Earlier conversation summary: " ++ summary ++ "]") }

/-- An optional endpoint turn as a list fragment. -/
def optList : Option Msg → List Msg
  | some m => [m]
  | none => []

/-- Embedding of `CompactionPlugin.transform_history` (plugin.py 87-149),
with the `ctx` dict reduced to its `messages` value. -/
def transform_history (summarize : List Msg → String) (messages : List Msg) :
    List Msg :=
  if messages.length < 3 then messages
  else
    let sys := leadingSystem messages
    let cur := trailingUser messages
    let history := historyOf messages
    if history.isEmpty then messages
    else if estimate_tokens history ≤ MAX_TOKENS then messages
    else
      let si := splitIndex history
      if si = 0 then messages
      else
        optList sys ++ [summaryMsg (summarize (history.take si))] ++
          history.drop si ++ optList cur

theorem historyOf_sublist (messages : List Msg) :
    (historyOf messages).Sublist messages := by
  unfold historyOf
  cases leadingSystem messages <;> cases trailingUser messages
  · exact List.Sublist.refl messages
  · exact List.dropLast_sublist messages
  · exact List.drop_sublist 1 messages
  · exact List.Sublist.trans (List.dropLast_sublist (messages.drop 1))
      (List.drop_sublist 1 messages)

theorem estimate_tokens_historyOf_le (messages : List Msg) :
    estimate_tokens (historyOf messages) ≤ estimate_tokens messages :=
  Nat.div_le_div_right
    (List.Sublist.sum_le_sum ((historyOf_sublist messages).map msgChars)
      (fun a _ => Nat.zero_le a))

theorem keepFromEnd_lt_length :
    ∀ (l : List Msg) (acc k : Nat), keepFromEnd l acc = some k → k < l.length := by
  intro l
  induction l with
  | nil => intro acc k h; simp [keepFromEnd] at h
  | cons m rest ih =>
    intro acc k h
    simp only [keepFromEnd] at h
    by_cases hc : TARGET_RECENT_TOKENS < acc + msgTokens m
    · rw [if_pos hc] at h
      simp only [Option.some.injEq] at h
      subst h
      simp
    · rw [if_neg hc] at h
      cases hrec : keepFromEnd rest (acc + msgTokens m) with
      | none => rw [hrec] at h; simp at h
      | some k2 =>
        rw [hrec] at h
        simp only [Option.map_some', Option.some.injEq] at h
        subst h
        have := ih (acc + msgTokens m) k2 hrec
        simp only [List.length_cons]
        omega

theorem keepFromEnd_sum_le :
    ∀ (l : List Msg) (acc k : Nat), acc ≤ TARGET_RECENT_TOKENS →
      keepFromEnd l acc = some k →
      acc + ((l.take k).map msgTokens).sum ≤ TARGET_RECENT_TOKENS := by
  intro l
  induction l with
  | nil => intro acc k _ h; simp [keepFromEnd] at h
  | cons m rest ih =>
    intro acc k hacc h
    simp only [keepFromEnd] at h
    by_cases hc : TARGET_RECENT_TOKENS < acc + msgTokens m
    · rw [if_pos hc] at h
      simp only [Option.some.injEq] at h
      subst h
      simpa using hacc
    · rw [if_neg hc] at h
      cases hrec : keepFromEnd rest (acc + msgTokens m) with
      | none => rw [hrec] at h; simp at h
      | some k2 =>
        rw [hrec] at h
        simp only [Option.map_some', Option.some.injEq] at h
        subst h
        have hrec2 := ih (acc + msgTokens m) k2 (by omega) hrec
        simp only [List.take_succ_cons, List.map_cons, List.sum_cons]
        omega

theorem splitIndex_pos (history : List Msg) (hne : ¬ history.isEmpty = true) :
    0 < splitIndex history := by
  have hlen : 0 < history.length := by
    cases history with
    | nil => simp at hne
    | cons a l => simp
  unfold splitIndex
  cases hk : keepFromEnd history.reverse 0 with
  | none => simpa using hlen
  | some k =>
    have := keepFromEnd_lt_length history.reverse 0 k hk
    simp only [List.length_reverse] at this
    simp only [Option.getD]
    omega

theorem recent_sum_le (history : List Msg) :
    (((history.drop (splitIndex history)).map msgTokens)).sum
      ≤ TARGET_RECENT_TOKENS := by
  cases hk : keepFromEnd history.reverse 0 with
  | none =>
    simp [splitIndex, hk]
  | some k =>
    have hsum := keepFromEnd_sum_le history.reverse 0 k (Nat.zero_le _) hk
    have hdrop : history.drop (splitIndex history) =
        (history.reverse.take k).reverse := by
      simp only [splitIndex, hk, Option.getD]
      exact List.rtake_eq_reverse_take_reverse history k
    rw [hdrop, List.map_reverse, List.sum_reverse]
    omega

/-- Claim C9 (amended): `transform_history` returns the input unchanged
whenever the estimated token count of the whole input (characters / 4) is
at or under `MAX_TOKENS = 12000` (the plugin in fact only budgets the
history BETWEEN the leading system turn and the trailing user turn, whose
estimate is no larger); and when that inner history exceeds the budget,
the result is the leading system turn, a synthetic system turn carrying
the summary, the recent suffix of the history (kept verbatim, its
per-message estimated tokens summing to at most
`TARGET_RECENT_TOKENS = 4000`), and the trailing user turn retained
verbatim.  The system turn, the summary turn, and the user turn are not
counted against any budget, so the OUTPUT's total estimate is not bounded
by `MAX_TOKENS` (see the counterexample). -/
theorem compaction_budget_and_shape
    (summarize : List Msg → String) (messages : List Msg) :
    (estimate_tokens messages ≤ MAX_TOKENS →
      transform_history summarize messages = messages) ∧
    (¬ messages.length < 3 → ¬ (historyOf messages).isEmpty = true →
      MAX_TOKENS < estimate_tokens (historyOf messages) →
      transform_history summarize messages =
        optList (leadingSystem messages) ++
          [summaryMsg (summarize
            ((historyOf messages).take (splitIndex (historyOf messages))))] ++
          (historyOf messages).drop (splitIndex (historyOf messages)) ++
          optList (trailingUser messages) ∧
      (((historyOf messages).drop (splitIndex (historyOf messages))).map
          msgTokens).sum ≤ TARGET_RECENT_TOKENS) := by
  constructor
  · intro h
    unfold transform_history
    by_cases h3 : messages.length < 3
    · simp [h3]
    · have hle : estimate_tokens (historyOf messages) ≤ MAX_TOKENS :=
        le_trans (estimate_tokens_historyOf_le messages) h
      by_cases hemp : (historyOf messages).isEmpty
      · simp [h3, hemp]
      · simp [h3, hemp, hle]
  · intro h3 hne hover
    have hsi : ¬ splitIndex (historyOf messages) = 0 :=
      Nat.pos_iff_ne_zero.mp (splitIndex_pos _ hne)
    have hle : ¬ estimate_tokens (historyOf messages) ≤ MAX_TOKENS :=
      Nat.not_le.mpr hover
    constructor
    · unfold transform_history
      simp [h3, hne, hle, hsi]
    · exact recent_sum_le _

/-- Claim C9 witness: a three-turn conversation well under budget passes
through unchanged. -/
theorem compaction_budget_and_shape_witness :
    estimate_tokens
        [{ role := "system", content := some "s" },
         { role := "assistant", content := some "a" },
         { role := "user", content := some "hi" }] ≤ MAX_TOKENS ∧
    transform_history (fun _ => "")
        [{ role := "system", content := some "s" },
         { role := "assistant", content := some "a" },
         { role := "user", content := some "hi" }] =
      [{ role := "system", content := some "s" },
       { role := "assistant", content := some "a" },
       { role := "user", content := some "hi" }] :=
  ⟨by decide,
    (compaction_budget_and_shape (fun _ => "")
      [{ role := "system", content := some "s" },
       { role := "assistant", content := some "a" },
       { role := "user", content := some "hi" }]).1 (by decide)⟩

/-- A leading system turn of `n` characters. -/
def bigMsg (n : Nat) : Msg :=
  { role := "system", content := some (String.mk (List.replicate n 'x')) }

/-- A three-turn input whose leading system turn carries `n` characters:
its total estimate is `(n + 6) / 4` while its inner history (one
4-character assistant turn) estimates 1 token. -/
def bigMsgs (n : Nat) : List Msg :=
  [bigMsg n, { role := "assistant", content := some "abcd" },
   { role := "user", content := some "hi" }]

theorem bigMsgs_estimate (n : Nat) : estimate_tokens (bigMsgs n) = (n + 6) / 4 := by
  unfold estimate_tokens bigMsgs bigMsg
  simp [msgChars, String.length]
  congr 1

theorem bigMsgs_hist (n : Nat) :
    historyOf (bigMsgs n) = [{ role := "assistant", content := some "abcd" }] := rfl

/-- Claim C9 counterexample: the claim says an over-budget input yields an
output whose estimate is at most `MAX_TOKENS` plus a small epsilon.  The
plugin budgets only the middle history: this input estimates 100001
tokens (over budget by 88001), yet its history estimates 1 token, so
`transform_history` returns it unchanged — the output estimate exceeds
`MAX_TOKENS + 80000`. -/
theorem compaction_over_budget_input_passes_unchanged :
    MAX_TOKENS + 80000 < estimate_tokens (bigMsgs 400000) ∧
    transform_history (fun _ => "") (bigMsgs 400000) = bigMsgs 400000 := by
  constructor
  · rw [bigMsgs_estimate 400000]
    decide
  · have hlen : ¬ (bigMsgs 400000).length < 3 := by
      rw [show (bigMsgs 400000).length = 3 from rfl]
      omega
    have hunder : estimate_tokens
        [({ role := "assistant", content := some "abcd" } : Msg)] ≤ MAX_TOKENS := by
      decide
    unfold transform_history
    rw [if_neg hlen, bigMsgs_hist]
    simp [hunder]

end Cobot
